import Mathlib

/-!
Verification development for the streaming chat client `src/public/chat.js`.

Strings are embedded as `List Char`.  Each definition models the JavaScript
entity of the same name; platform functions used by the source
(`String.prototype.trimStart`, `String.prototype.split`, `JSON.parse`,
string coercion) are modelled explicitly next to their uses.
-/

set_option maxHeartbeats 4000000

/-- Newline character (code 10), named so the development stays free of
escaped character literals. -/
def nlChar : Char := Char.ofNat 10

/-- Carriage-return character (code 13). -/
def crChar : Char := Char.ofNat 13

/-- Convert a Lean string literal to the `List Char` representation used
throughout. -/
def strL (s : String) : List Char := s.data

/-- Code points treated as whitespace by JavaScript's `trim`/`trimStart`
(ECMAScript WhiteSpace and LineTerminator sets). -/
def jsWhitespaceCodes : List Nat :=
  [9, 10, 11, 12, 13, 32, 160, 5760, 8192, 8193, 8194, 8195, 8196, 8197,
   8198, 8199, 8200, 8201, 8202, 8232, 8233, 8239, 8287, 12288, 65279]

/-- Whether a character is JavaScript whitespace. -/
def isJsSpace (c : Char) : Bool := jsWhitespaceCodes.contains c.toNat

/-- JS `String.prototype.startsWith` on list-of-character strings. -/
def startsWithL : List Char → List Char → Bool
  | [], _ => true
  | _ :: _, [] => false
  | p :: ps, c :: cs => p == c && startsWithL ps cs

/- ======================= Event Framer ======================= -/

/-- Line 233: `buffer.replace(/\r/g, "")`. -/
def removeCR (s : List Char) : List Char := s.filter (fun c => ¬ (c = crChar))

/-- JS `String.prototype.split("\n")` (line 240): splitting the empty string
gives one empty piece, and a trailing newline gives a trailing empty piece. -/
def splitLines : List Char → List (List Char)
  | [] => [[]]
  | c :: rest =>
    if c = nlChar then [] :: splitLines rest
    else
      match splitLines rest with
      | [] => [[c]]
      | l :: ls => (c :: l) :: ls

/-- Lines 243-245: keep a line only if it `startsWith("data:")`, and then take
`line.slice("data:".length).trimStart()` (drop the 5-character prefix and all
leading JS whitespace). -/
def dataLineValue (line : List Char) : Option (List Char) :=
  if startsWithL (strL "data:") line then
    some ((line.drop 5).dropWhile isJsSpace)
  else none

/-- The retained `dataLines` of one raw event block (lines 240-246). -/
def dataLinesOf (rawEvent : List Char) : List (List Char) :=
  (splitLines rawEvent).filterMap dataLineValue

/-- Lines 247-248: a block with no `data:` line is skipped (`continue`),
otherwise the block yields one event, its data lines joined with `"\n"`. -/
def blockEvents (rawEvent : List Char) : List (List Char) :=
  let dl := dataLinesOf rawEvent
  if dl = [] then [] else [List.intercalate [nlChar] dl]

/-- Result record of `consumeSseEvents` (line 250): the extracted `events`
and the unconsumed `buffer` remainder. -/
structure SseParseResult where
  events : List (List Char)
  buffer : List Char
deriving Repr, DecidableEq

/-- The `while ((eventEndIndex = normalized.indexOf("\n\n")) !== -1)` loop of
lines 236-249, written as a single left-to-right scan: `cur` is the part of
the current block already scanned (it contains no separator and is never
rescanned), and the first argument position of the scan sits just after
`cur`.  Finding `"\n\n"` emits the block accumulated in `cur` and restarts
with an empty accumulator, exactly as `slice(eventEndIndex + 2)` does. -/
def frameScan : List Char → List Char → SseParseResult
  | cur, c1 :: c2 :: rest =>
    if c1 = nlChar ∧ c2 = nlChar then
      let r := frameScan [] rest
      ⟨blockEvents cur ++ r.events, r.buffer⟩
    else frameScan (cur ++ [c1]) (c2 :: rest)
  | cur, [c] => ⟨[], cur ++ [c]⟩
  | cur, [] => ⟨[], cur⟩

/-- `consumeSseEvents` (lines 232-251): normalize by deleting carriage
returns, then repeatedly split off blank-line-terminated blocks. -/
def consumeSseEvents (buffer : List Char) : SseParseResult :=
  frameScan [] (removeCR buffer)

/- ============ Specification helpers for the framer proofs ============ -/

/-- Position of the first `"\n\n"` separator, as `normalized.indexOf("\n\n")`
computes it: `some (before, after)` splits the text around the first
separator; `none` means no separator occurs. -/
def splitFirstSep : List Char → Option (List Char × List Char)
  | c1 :: c2 :: rest =>
    if c1 = nlChar ∧ c2 = nlChar then some ([], rest)
    else
      match splitFirstSep (c2 :: rest) with
      | some (a, b) => some (c1 :: a, b)
      | none => none
  | _ => none

theorem splitFirstSep_nil : splitFirstSep [] = none := rfl

theorem splitFirstSep_single (c : Char) : splitFirstSep [c] = none := rfl

theorem splitFirstSep_cons2 (c1 c2 : Char) (rest : List Char) :
    splitFirstSep (c1 :: c2 :: rest)
      = if c1 = nlChar ∧ c2 = nlChar then some ([], rest)
        else
          match splitFirstSep (c2 :: rest) with
          | some (a, b) => some (c1 :: a, b)
          | none => none := rfl

theorem frameScan_nil (cur : List Char) : frameScan cur [] = ⟨[], cur⟩ := rfl

theorem frameScan_single (cur : List Char) (c : Char) :
    frameScan cur [c] = ⟨[], cur ++ [c]⟩ := rfl

theorem frameScan_cons2 (cur : List Char) (c1 c2 : Char) (rest : List Char) :
    frameScan cur (c1 :: c2 :: rest)
      = if c1 = nlChar ∧ c2 = nlChar then
          ⟨blockEvents cur ++ (frameScan [] rest).events, (frameScan [] rest).buffer⟩
        else frameScan (cur ++ [c1]) (c2 :: rest) := rfl

/-- A successful separator split decomposes the text. -/
theorem splitFirstSep_eq_append :
    ∀ (s a b : List Char), splitFirstSep s = some (a, b) →
      s = a ++ nlChar :: nlChar :: b
  | [], a, b, h => by simp [splitFirstSep_nil] at h
  | [c], a, b, h => by simp [splitFirstSep_single] at h
  | c1 :: c2 :: rest, a, b, h => by
    rw [splitFirstSep_cons2] at h
    by_cases hsep : c1 = nlChar ∧ c2 = nlChar
    · rw [if_pos hsep] at h
      simp only [Option.some.injEq, Prod.mk.injEq] at h
      obtain ⟨ha, hb⟩ := h
      subst ha
      subst hb
      simp [hsep.1, hsep.2]
    · rw [if_neg hsep] at h
      cases hm : splitFirstSep (c2 :: rest) with
      | none => rw [hm] at h; cases h
      | some ab =>
        rw [hm] at h
        simp only [Option.some.injEq, Prod.mk.injEq] at h
        obtain ⟨ha, hb⟩ := h
        subst ha
        subst hb
        have := splitFirstSep_eq_append (c2 :: rest) ab.1 ab.2 (by rw [hm])
        simp [this]

/-- Appending text on the right does not move the first separator. -/
theorem splitFirstSep_append_some :
    ∀ (s t a b : List Char), splitFirstSep s = some (a, b) →
      splitFirstSep (s ++ t) = some (a, b ++ t)
  | [], t, a, b, h => by simp [splitFirstSep_nil] at h
  | [c], t, a, b, h => by simp [splitFirstSep_single] at h
  | c1 :: c2 :: rest, t, a, b, h => by
    rw [splitFirstSep_cons2] at h
    by_cases hsep : c1 = nlChar ∧ c2 = nlChar
    · rw [if_pos hsep] at h
      simp only [Option.some.injEq, Prod.mk.injEq] at h
      obtain ⟨ha, hb⟩ := h
      subst ha
      subst hb
      simp only [List.cons_append]
      rw [splitFirstSep_cons2, if_pos hsep]
    · rw [if_neg hsep] at h
      cases hm : splitFirstSep (c2 :: rest) with
      | none => rw [hm] at h; cases h
      | some ab =>
        rw [hm] at h
        simp only [Option.some.injEq, Prod.mk.injEq] at h
        obtain ⟨ha, hb⟩ := h
        subst ha
        subst hb
        have ih := splitFirstSep_append_some (c2 :: rest) t ab.1 ab.2 (by rw [hm])
        simp only [List.cons_append]
        rw [splitFirstSep_cons2, if_neg hsep]
        simp only [List.cons_append] at ih
        rw [ih]

/-- When the input holds no separator, the scan just accumulates it. -/
theorem frameScan_of_sep_none :
    ∀ (s cur : List Char), splitFirstSep s = none →
      frameScan cur s = ⟨[], cur ++ s⟩
  | [], cur, _ => by simp [frameScan_nil]
  | [c], cur, _ => by simp [frameScan_single]
  | c1 :: c2 :: rest, cur, h => by
    rw [splitFirstSep_cons2] at h
    by_cases hsep : c1 = nlChar ∧ c2 = nlChar
    · rw [if_pos hsep] at h; cases h
    · rw [frameScan_cons2, if_neg hsep]
      rw [if_neg hsep] at h
      cases hm : splitFirstSep (c2 :: rest) with
      | none =>
        rw [frameScan_of_sep_none (c2 :: rest) (cur ++ [c1]) hm]
        simp
      | some ab =>
        obtain ⟨a', b'⟩ := ab
        rw [hm] at h
        cases h

/-- When the input holds a separator, the scan emits the block before it and
continues after it with an empty accumulator. -/
theorem frameScan_of_sep_some :
    ∀ (s cur a b : List Char), splitFirstSep s = some (a, b) →
      frameScan cur s
        = ⟨blockEvents (cur ++ a) ++ (frameScan [] b).events, (frameScan [] b).buffer⟩
  | [], cur, a, b, h => by simp [splitFirstSep_nil] at h
  | [c], cur, a, b, h => by simp [splitFirstSep_single] at h
  | c1 :: c2 :: rest, cur, a, b, h => by
    rw [splitFirstSep_cons2] at h
    by_cases hsep : c1 = nlChar ∧ c2 = nlChar
    · rw [if_pos hsep] at h
      simp only [Option.some.injEq, Prod.mk.injEq] at h
      obtain ⟨ha, hb⟩ := h
      subst ha
      subst hb
      rw [frameScan_cons2, if_pos hsep]
      simp
    · rw [if_neg hsep] at h
      cases hm : splitFirstSep (c2 :: rest) with
      | none => rw [hm] at h; cases h
      | some ab =>
        rw [hm] at h
        simp only [Option.some.injEq, Prod.mk.injEq] at h
        obtain ⟨ha, hb⟩ := h
        subst ha
        subst hb
        rw [frameScan_cons2, if_neg hsep]
        rw [frameScan_of_sep_some (c2 :: rest) (cur ++ [c1]) ab.1 ab.2 (by rw [hm])]
        simp

/-- The scan remainder carries no separator. -/
theorem frameScan_buffer_sep_none (s : List Char) :
    splitFirstSep ((frameScan [] s).buffer) = none := by
  cases hm : splitFirstSep s with
  | none =>
    rw [frameScan_of_sep_none s [] hm]
    simpa using hm
  | some ab =>
    rw [frameScan_of_sep_some s [] ab.1 ab.2 (by rw [hm])]
    exact frameScan_buffer_sep_none ab.2
termination_by s.length
decreasing_by
  have h := splitFirstSep_eq_append s ab.1 ab.2 (by rw [hm])
  subst h
  simp
  omega

/-- The scan remainder is a suffix of the accumulator plus the input. -/
theorem frameScan_buffer_suffix (s cur : List Char) :
    (frameScan cur s).buffer <:+ cur ++ s := by
  cases hm : splitFirstSep s with
  | none =>
    rw [frameScan_of_sep_none s cur hm]
  | some ab =>
    rw [frameScan_of_sep_some s cur ab.1 ab.2 (by rw [hm])]
    have h := splitFirstSep_eq_append s ab.1 ab.2 (by rw [hm])
    have ih := frameScan_buffer_suffix ab.2 []
    simp only [List.nil_append] at ih
    refine ih.trans ?_
    subst h
    exact ⟨cur ++ ab.1 ++ [nlChar, nlChar], by simp⟩
termination_by s.length
decreasing_by
  have h := splitFirstSep_eq_append s ab.1 ab.2 (by rw [hm])
  subst h
  simp
  omega

/-- Composition law for the framer: scanning `x ++ y` in one go equals
scanning `x`, then rescanning its remainder extended by `y`, with the event
lists concatenated.  This is exactly how the read loop threads the carried
remainder through successive `consumeSseEvents` calls. -/
theorem frameScan_append_split (x y : List Char) :
    frameScan [] (x ++ y)
      = ⟨(frameScan [] x).events ++ (frameScan [] ((frameScan [] x).buffer ++ y)).events,
         (frameScan [] ((frameScan [] x).buffer ++ y)).buffer⟩ := by
  cases hm : splitFirstSep x with
  | none =>
    rw [frameScan_of_sep_none x [] hm]
    simp
  | some ab =>
    have hxy : splitFirstSep (x ++ y) = some (ab.1, ab.2 ++ y) := by
      have := splitFirstSep_append_some x y ab.1 ab.2 (by rw [hm])
      simpa using this
    rw [frameScan_of_sep_some (x ++ y) [] ab.1 (ab.2 ++ y) hxy]
    rw [frameScan_of_sep_some x [] ab.1 ab.2 (by rw [hm])]
    have ih := frameScan_append_split ab.2 y
    rw [ih]
    simp
termination_by x.length
decreasing_by
  have h := splitFirstSep_eq_append x ab.1 ab.2 (by rw [hm])
  subst h
  simp
  omega

theorem removeCR_append (a b : List Char) :
    removeCR (a ++ b) = removeCR a ++ removeCR b := List.filter_append a b

theorem removeCR_idem (s : List Char) : removeCR (removeCR s) = removeCR s := by
  simp [removeCR, List.filter_filter]

/-- Characters of a carriage-return-free text stay carriage-return-free in the
scan remainder. -/
theorem frameScan_buffer_crFree (s : List Char) (h : removeCR s = s) :
    removeCR ((frameScan [] s).buffer) = (frameScan [] s).buffer := by
  have hsub : (frameScan [] s).buffer <:+ s := by
    simpa using frameScan_buffer_suffix s []
  have hall : ∀ c ∈ s, ¬ (c = crChar) := by
    intro c hc
    have := (List.filter_eq_self.mp h) c hc
    simpa using this
  have : ∀ c ∈ (frameScan [] s).buffer, ¬ (c = crChar) := by
    intro c hc
    exact hall c (hsub.sublist.subset hc)
  simp only [removeCR]
  rw [List.filter_eq_self]
  intro a ha
  simpa using this a ha

/-- Threading of the carried remainder through successive framer calls, as the
read loop performs it (lines 151-154): each decoded chunk is appended to the
previous remainder, framed, and the returned remainder is carried forward. -/
def frameChunks : List (List Char) → List Char → SseParseResult
  | [], buf => ⟨[], buf⟩
  | c :: cs, buf =>
    let r := consumeSseEvents (buf ++ c)
    let r2 := frameChunks cs r.buffer
    ⟨r.events ++ r2.events, r2.buffer⟩

/-- Chunked framing from a separator-free, carriage-return-free carried
remainder agrees with framing the whole remaining text at once. -/
theorem frameChunks_eq_whole :
    ∀ (cs : List (List Char)) (buf : List Char),
      splitFirstSep buf = none → removeCR buf = buf →
      frameChunks cs buf = consumeSseEvents (buf ++ cs.flatten)
  | [], buf, hsep, hcr => by
    simp only [frameChunks, List.flatten_nil, List.append_nil, consumeSseEvents, hcr]
    rw [frameScan_of_sep_none buf [] hsep]
    simp
  | c :: cs, buf, hsep, hcr => by
    have hx : consumeSseEvents (buf ++ c) = frameScan [] (buf ++ removeCR c) := by
      show frameScan [] (removeCR (buf ++ c)) = _
      rw [removeCR_append, hcr]
    have hzcr : removeCR (buf ++ removeCR c) = buf ++ removeCR c := by
      rw [removeCR_append, hcr, removeCR_idem]
    have hbsep : splitFirstSep ((frameScan [] (buf ++ removeCR c)).buffer) = none :=
      frameScan_buffer_sep_none (buf ++ removeCR c)
    have hbcr : removeCR ((frameScan [] (buf ++ removeCR c)).buffer)
        = (frameScan [] (buf ++ removeCR c)).buffer :=
      frameScan_buffer_crFree (buf ++ removeCR c) hzcr
    have ih := frameChunks_eq_whole cs ((frameScan [] (buf ++ removeCR c)).buffer) hbsep hbcr
    have hy : consumeSseEvents ((frameScan [] (buf ++ removeCR c)).buffer ++ cs.flatten)
        = frameScan [] ((frameScan [] (buf ++ removeCR c)).buffer ++ removeCR cs.flatten) := by
      show frameScan [] (removeCR _) = _
      rw [removeCR_append, hbcr]
    have hz : consumeSseEvents (buf ++ (c :: cs).flatten)
        = frameScan [] ((buf ++ removeCR c) ++ removeCR cs.flatten) := by
      show frameScan [] (removeCR (buf ++ (c :: cs).flatten)) = _
      rw [List.flatten_cons, removeCR_append, removeCR_append, hcr, ← List.append_assoc]
    show (⟨(consumeSseEvents (buf ++ c)).events
            ++ (frameChunks cs ((consumeSseEvents (buf ++ c)).buffer)).events,
          (frameChunks cs ((consumeSseEvents (buf ++ c)).buffer)).buffer⟩ : SseParseResult)
        = consumeSseEvents (buf ++ (c :: cs).flatten)
    rw [hx, ih, hy, hz, frameScan_append_split (buf ++ removeCR c) (removeCR cs.flatten)]

theorem splitLines_ne_nil : ∀ s : List Char, splitLines s ≠ []
  | [] => by simp [splitLines]
  | c :: rest => by
    simp only [splitLines]
    by_cases h : c = nlChar
    · simp [h]
    · rw [if_neg h]
      cases hm : splitLines rest with
      | nil => simp
      | cons l ls => simp

/-- A trailing newline adds exactly one trailing empty line. -/
theorem splitLines_snoc_nl : ∀ p : List Char,
    splitLines (p ++ [nlChar]) = splitLines p ++ [[]]
  | [] => by simp [splitLines]
  | c :: p => by
    simp only [List.cons_append, splitLines, List.append_eq]
    by_cases h : c = nlChar
    · rw [if_pos h, if_pos h, splitLines_snoc_nl p]
      simp
    · rw [if_neg h, if_neg h, splitLines_snoc_nl p]
      cases hm : splitLines p with
      | nil => exact absurd hm (splitLines_ne_nil p)
      | cons l ls => simp

theorem dataLineValue_nil : dataLineValue [] = none := rfl

theorem dataLinesOf_snoc_nl (p : List Char) :
    dataLinesOf (p ++ [nlChar]) = dataLinesOf p := by
  simp [dataLinesOf, splitLines_snoc_nl, List.filterMap_append, dataLineValue_nil]

theorem blockEvents_snoc_nl (p : List Char) :
    blockEvents (p ++ [nlChar]) = blockEvents p := by
  simp [blockEvents, dataLinesOf_snoc_nl]

/-- Flushing: appending one blank-line separator to separator-free text frames
exactly that text as a final block. -/
theorem frameScan_flush :
    ∀ (s cur : List Char), splitFirstSep s = none →
      (frameScan cur (s ++ [nlChar, nlChar])).events = blockEvents (cur ++ s)
  | [], cur, _ => by
    rw [List.nil_append, frameScan_cons2, if_pos ⟨rfl, rfl⟩]
    simp [frameScan_nil]
  | [c], cur, _ => by
    simp only [List.cons_append, List.nil_append]
    rw [frameScan_cons2]
    by_cases h : c = nlChar
    · rw [if_pos ⟨h, rfl⟩]
      rw [h, frameScan_single]
      simp [blockEvents_snoc_nl]
    · rw [if_neg (by intro hc; exact h hc.1)]
      rw [frameScan_cons2, if_pos ⟨rfl, rfl⟩]
      simp [frameScan_nil]
  | c1 :: c2 :: rest, cur, h => by
    rw [splitFirstSep_cons2] at h
    by_cases hsep : c1 = nlChar ∧ c2 = nlChar
    · rw [if_pos hsep] at h
      cases h
    · rw [if_neg hsep] at h
      have hrest : splitFirstSep (c2 :: rest) = none := by
        cases hm : splitFirstSep (c2 :: rest) with
        | none => rfl
        | some ab =>
          rw [hm] at h
          obtain ⟨a, b⟩ := ab
          cases h
      simp only [List.cons_append]
      rw [frameScan_cons2, if_neg hsep]
      have ih := frameScan_flush (c2 :: rest) (cur ++ [c1]) hrest
      simp only [List.cons_append] at ih
      rw [ih]
      simp

theorem removeCR_blank : removeCR (strL "\n\n") = [nlChar, nlChar] := by decide

/-- End-of-data flush at the `consumeSseEvents` level (line 142's
`consumeSseEvents(buffer + "\n\n")`): the events of the padded buffer are the
events of the buffer followed by the block framed from its remainder. -/
theorem consumeSseEvents_flush (b : List Char) :
    (consumeSseEvents (b ++ strL "\n\n")).events
      = (consumeSseEvents b).events ++ blockEvents ((consumeSseEvents b).buffer) := by
  have h1 : consumeSseEvents (b ++ strL "\n\n")
      = frameScan [] (removeCR b ++ [nlChar, nlChar]) := by
    simp only [consumeSseEvents, removeCR_append, removeCR_blank]
  rw [h1, frameScan_append_split (removeCR b) [nlChar, nlChar]]
  have h2 := frameScan_flush ((frameScan [] (removeCR b)).buffer) []
    (frameScan_buffer_sep_none (removeCR b))
  simp only [List.nil_append] at h2
  simp [consumeSseEvents, h2]

/- ======================= JSON model ======================= -/

/-- Double-quote character (code 34). -/
def quoteC : Char := Char.ofNat 34

/-- Backslash character (code 92). -/
def backslashC : Char := Char.ofNat 92

/-- Forward-slash character (code 47). -/
def slashC : Char := Char.ofNat 47

/-- Left curly bracket (code 123). -/
def lbraceC : Char := Char.ofNat 123

/-- Right curly bracket (code 125). -/
def rbraceC : Char := Char.ofNat 125

/-- Left square bracket (code 91). -/
def lbrackC : Char := Char.ofNat 91

/-- Right square bracket (code 93). -/
def rbrackC : Char := Char.ofNat 93

/-- Colon (code 58). -/
def colonC : Char := Char.ofNat 58

/-- Comma (code 44). -/
def commaC : Char := Char.ofNat 44

/-- Plus sign (code 43). -/
def plusC : Char := Char.ofNat 43

/-- Minus sign (code 45). -/
def minusC : Char := Char.ofNat 45

/-- Decimal point (code 46). -/
def dotC : Char := Char.ofNat 46

/-- Digit zero (code 48). -/
def zeroC : Char := Char.ofNat 48

/-- Parsed JSON values, as produced by the platform `JSON.parse` that
`appendChunkFromSseData` calls.  Numbers keep their literal text (their exact
double value is never inspected by the client code beyond truthiness). -/
inductive Json where
  | null : Json
  | bool : Bool → Json
  | num : List Char → Json
  | str : List Char → Json
  | arr : List Json → Json
  | obj : List (List Char × Json) → Json
deriving Repr, Inhabited

/-- JSON insignificant whitespace (RFC 8259: space, tab, newline, return). -/
def isJsonWs (c : Char) : Bool :=
  c.toNat = 32 || c.toNat = 9 || c.toNat = 10 || c.toNat = 13

/-- Skip JSON whitespace. -/
def skipWs (s : List Char) : List Char := s.dropWhile isJsonWs

/-- Hex digit value, for `\u` escapes. -/
def hexVal (c : Char) : Option Nat :=
  if zeroC ≤ c ∧ c.toNat ≤ zeroC.toNat + 9 then some (c.toNat - zeroC.toNat)
  else if 97 ≤ c.toNat ∧ c.toNat ≤ 102 then some (c.toNat - 97 + 10)
  else if 65 ≤ c.toNat ∧ c.toNat ≤ 70 then some (c.toNat - 65 + 10)
  else none

/-- Body of a JSON string after the opening quote: unescape until the closing
quote, returning the decoded text and the rest of the input.  (Surrogate-pair
combination of consecutive `\u` escapes is not modelled; no payload in this
development uses them.) -/
def parseStringBody : Nat → List Char → Option (List Char × List Char)
  | 0, _ => none
  | Nat.succ fuel, s =>
    match s with
    | [] => none
    | c :: rest =>
      if c = quoteC then some ([], rest)
      else if c = backslashC then
        match rest with
        | [] => none
        | e :: rest2 =>
          if e = quoteC ∨ e = backslashC ∨ e = slashC then
            (parseStringBody fuel rest2).map (fun p => (e :: p.1, p.2))
          else if e = Char.ofNat 98 then
            (parseStringBody fuel rest2).map (fun p => (Char.ofNat 8 :: p.1, p.2))
          else if e = Char.ofNat 102 then
            (parseStringBody fuel rest2).map (fun p => (Char.ofNat 12 :: p.1, p.2))
          else if e = Char.ofNat 110 then
            (parseStringBody fuel rest2).map (fun p => (nlChar :: p.1, p.2))
          else if e = Char.ofNat 114 then
            (parseStringBody fuel rest2).map (fun p => (crChar :: p.1, p.2))
          else if e = Char.ofNat 116 then
            (parseStringBody fuel rest2).map (fun p => (Char.ofNat 9 :: p.1, p.2))
          else if e = Char.ofNat 117 then
            match rest2 with
            | h1 :: h2 :: h3 :: h4 :: rest3 =>
              match hexVal h1, hexVal h2, hexVal h3, hexVal h4 with
              | some v1, some v2, some v3, some v4 =>
                (parseStringBody fuel rest3).map
                  (fun p => (Char.ofNat (((v1 * 16 + v2) * 16 + v3) * 16 + v4) :: p.1, p.2))
              | _, _, _, _ => none
            | _ => none
          else none
      else if c.toNat < 32 then none
      else (parseStringBody fuel rest).map (fun p => (c :: p.1, p.2))

/-- Longest digit prefix and the remainder. -/
def digitsPrefix (s : List Char) : List Char × List Char :=
  (s.takeWhile Char.isDigit, s.dropWhile Char.isDigit)

/-- JSON number literal (RFC 8259 grammar), returned as its literal text. -/
def parseNumber (s : List Char) : Option (List Char × List Char) :=
  let signAndRest : List Char × List Char :=
    match s with
    | c :: r => if c = minusC then ([c], r) else ([], s)
    | [] => ([], s)
  let sign := signAndRest.1
  let s1 := signAndRest.2
  match s1 with
  | [] => none
  | c :: r =>
    if ¬ c.isDigit then none
    else
      let intAndRest : List Char × List Char :=
        if c = zeroC then ([c], r) else digitsPrefix s1
      let intPart := intAndRest.1
      let s2 := intAndRest.2
      let fracParsed : Option (List Char × List Char) :=
        match s2 with
        | d :: r2 =>
          if d = dotC then
            let p := digitsPrefix r2
            if p.1 = [] then none else some (d :: p.1, p.2)
          else some ([], s2)
        | [] => some ([], s2)
      match fracParsed with
      | none => none
      | some (fracPart, s3) =>
        let expParsed : Option (List Char × List Char) :=
          match s3 with
          | e :: r3 =>
            if e = Char.ofNat 101 ∨ e = Char.ofNat 69 then
              let sgnAndRest : List Char × List Char :=
                match r3 with
                | c2 :: rr => if c2 = plusC ∨ c2 = minusC then ([c2], rr) else ([], r3)
                | [] => ([], r3)
              let p := digitsPrefix sgnAndRest.2
              if p.1 = [] then none else some (e :: (sgnAndRest.1 ++ p.1), p.2)
            else some ([], s3)
          | [] => some ([], s3)
        match expParsed with
        | none => none
        | some (expPart, s4) => some (sign ++ intPart ++ fracPart ++ expPart, s4)

mutual

/-- JSON value parser (RFC 8259), fuel-indexed.  Returns the value and the
unconsumed input. -/
def parseValue : Nat → List Char → Option (Json × List Char)
  | 0, _ => none
  | Nat.succ fuel, s =>
    let t := skipWs s
    if startsWithL (strL "null") t then some (Json.null, t.drop 4)
    else if startsWithL (strL "true") t then some (Json.bool true, t.drop 4)
    else if startsWithL (strL "false") t then some (Json.bool false, t.drop 5)
    else
      match t with
      | [] => none
      | c :: rest =>
        if c = lbraceC then parseObjBody fuel rest
        else if c = lbrackC then parseArrBody fuel rest
        else if c = quoteC then
          (parseStringBody (rest.length + 1) rest).map (fun p => (Json.str p.1, p.2))
        else (parseNumber t).map (fun p => (Json.num p.1, p.2))

/-- Object body after the opening brace: empty object or members. -/
def parseObjBody : Nat → List Char → Option (Json × List Char)
  | 0, _ => none
  | Nat.succ fuel, s =>
    match skipWs s with
    | c :: rest =>
      if c = rbraceC then some (Json.obj [], rest)
      else (parseObjMembers fuel s).map (fun p => (Json.obj p.1, p.2))
    | [] => none

/-- One or more `"key": value` members, comma-separated, up to the closing
brace. -/
def parseObjMembers : Nat → List Char → Option (List (List Char × Json) × List Char)
  | 0, _ => none
  | Nat.succ fuel, s =>
    match skipWs s with
    | c :: rest =>
      if c = quoteC then
        match parseStringBody (rest.length + 1) rest with
        | some (key, r) =>
          match skipWs r with
          | c2 :: r2 =>
            if c2 = colonC then
              match parseValue fuel r2 with
              | some (v, r3) =>
                match skipWs r3 with
                | c3 :: r4 =>
                  if c3 = commaC then
                    (parseObjMembers fuel r4).map (fun p => ((key, v) :: p.1, p.2))
                  else if c3 = rbraceC then some ([(key, v)], r4)
                  else none
                | [] => none
              | none => none
            else none
          | [] => none
        | none => none
      else none
    | [] => none

/-- Array body after the opening bracket: empty array or items. -/
def parseArrBody : Nat → List Char → Option (Json × List Char)
  | 0, _ => none
  | Nat.succ fuel, s =>
    match skipWs s with
    | c :: rest =>
      if c = rbrackC then some (Json.arr [], rest)
      else (parseArrItems fuel s).map (fun p => (Json.arr p.1, p.2))
    | [] => none

/-- One or more comma-separated array items up to the closing bracket. -/
def parseArrItems : Nat → List Char → Option (List Json × List Char)
  | 0, _ => none
  | Nat.succ fuel, s =>
    match parseValue fuel s with
    | some (v, r) =>
      match skipWs r with
      | c :: r2 =>
        if c = commaC then (parseArrItems fuel r2).map (fun p => (v :: p.1, p.2))
        else if c = rbrackC then some ([v], r2)
        else none
      | [] => none
    | none => none

end

/-- The platform `JSON.parse` used at line 170: parse one value, require only
whitespace to remain, otherwise fail (modelled as `none`; the JS exception is
caught at line 184). -/
def JSON.parse (s : List Char) : Option Json :=
  match parseValue (3 * s.length + 3) s with
  | some (v, r) => if skipWs r = [] then some v else none
  | none => none

/-- JS property access `o.k` / `o["k"]`: defined only on objects (duplicate
keys resolve to the last one, as `JSON.parse` produces); `undefined` is
modelled as `none`. -/
def Json.getField (j : Json) (k : List Char) : Option Json :=
  match j with
  | Json.obj kvs => kvs.foldl (fun acc kv => if kv.1 = k then some kv.2 else acc) none
  | _ => none

/-- JS indexing `x?.[0]`: first array element; property `"0"` on objects;
one-character string on strings; `undefined` elsewhere. -/
def Json.atIndex0 (j : Json) : Option Json :=
  match j with
  | Json.arr xs => xs.head?
  | Json.obj kvs => Json.getField (Json.obj kvs) [zeroC]
  | Json.str s =>
    match s with
    | c :: _ => some (Json.str [c])
    | [] => none
  | _ => none

/-- Whether a JSON number literal denotes zero (sign, dot and exponent aside,
every mantissa digit is `0`). -/
def numLitIsZero (lit : List Char) : Bool :=
  (lit.takeWhile (fun c => ¬ (c = Char.ofNat 101 ∨ c = Char.ofNat 69))).all
    (fun c => !c.isDigit || c == zeroC)

/-- JS truthiness of a parsed JSON value (`undefined` is handled separately
as `none`). -/
def Json.truthy : Json → Bool
  | Json.null => false
  | Json.bool b => b
  | Json.num lit => !numLitIsZero lit
  | Json.str s => !s.isEmpty
  | Json.arr _ => true
  | Json.obj _ => true

/-- JS ToString coercion (as `responseText += content` performs), fuel-indexed
over the nesting depth: strings are themselves, arrays join their elements
with commas eliding nulls, objects print as `[object Object]`; a number
prints as its literal (an approximation of double re-formatting, never
exercised by the client's payloads).  `appendChunkFromSseData` passes fuel
`data.length + 1`, which exceeds the nesting depth of any value `JSON.parse`
can extract from `data`. -/
def jsToStringFuel : Nat → Json → List Char
  | 0, _ => []
  | Nat.succ _, Json.null => strL "null"
  | Nat.succ _, Json.bool true => strL "true"
  | Nat.succ _, Json.bool false => strL "false"
  | Nat.succ _, Json.num lit => lit
  | Nat.succ _, Json.str s => s
  | Nat.succ fuel, Json.arr xs =>
    List.intercalate [commaC]
      (xs.map (fun x =>
        match x with
        | Json.null => []
        | y => jsToStringFuel fuel y))
  | Nat.succ _, Json.obj _ => strL "[object Object]"

/- ======================= Stream Coordinator ======================= -/

/-- The optional chain `jsonData.choices?.[0]?.delta?.content` of line 176. -/
def choicesChain (jsonData : Json) : Option Json :=
  (((Json.getField jsonData (strL "choices")).bind Json.atIndex0).bind
      (fun c => Json.getField c (strL "delta"))).bind
    (fun d => Json.getField d (strL "content"))

/-- The `else if (jsonData.choices?.[0]?.delta?.content)` branch (line 176):
`content` is set to the chain's value when that value is truthy, otherwise it
keeps its initial empty-string value. -/
def sseFallback (jsonData : Json) : Json :=
  match choicesChain jsonData with
  | some v => if Json.truthy v then v else Json.str []
  | none => Json.str []

/-- Lines 173-178: the `content` local after the dual-schema resolution.
The direct `response` field wins when it is a string of positive length;
otherwise the chat-completion chain is consulted. -/
def sseContent (jsonData : Json) : Json :=
  match Json.getField jsonData (strL "response") with
  | some (Json.str s) => if 0 < s.length then Json.str s else sseFallback jsonData
  | _ => sseFallback jsonData

/-- `appendChunkFromSseData` (lines 168-188): parse the payload; on failure
ignore it (the catch block); otherwise resolve `content` and, when truthy
(`if (content)`), append its string coercion to `responseText`. -/
def appendChunkFromSseData (data : List Char) (responseText : List Char) : List Char :=
  match JSON.parse data with
  | none => responseText
  | some jsonData =>
    let content := sseContent jsonData
    if Json.truthy content then responseText ++ jsToStringFuel (data.length + 1) content
    else responseText

/-- The termination sentinel payload. -/
def doneSentinel : List Char := strL "[DONE]"

/-- The `for (const data of parsed.events)` loop of lines 156-163 (also the
loop of lines 143-146, whose `break` on the sentinel likewise stops
processing): threads `responseText` through the events, stopping at the first
sentinel; the flag mirrors `sawDone`. -/
def processEvents : List (List Char) → List Char → List Char × Bool
  | [], responseText => (responseText, false)
  | data :: rest, responseText =>
    if data = doneSentinel then (responseText, true)
    else processEvents rest (appendChunkFromSseData data responseText)

/-- The `while (true)` read loop of lines 137-166 over the decoded text
chunks of the response body.  On end-of-data the pending buffer is flushed
with a final blank-line separator (line 142); when the sentinel was seen the
loop breaks at once, dropping the cleared buffer and all remaining chunks. -/
def readLoop : List (List Char) → List Char → List Char → List Char
  | [], buffer, responseText =>
    (processEvents (consumeSseEvents (buffer ++ strL "\n\n")).events responseText).1
  | chunk :: rest, buffer, responseText =>
    let parsed := consumeSseEvents (buffer ++ chunk)
    let pr := processEvents parsed.events responseText
    if pr.2 then pr.1 else readLoop rest parsed.buffer pr.1

/-- Conversation roles. -/
inductive Role where
  | user : Role
  | assistant : Role
deriving DecidableEq, Repr

/-- One conversation turn (`{ role, content }`). -/
structure Turn where
  role : Role
  content : List Char
deriving DecidableEq, Repr

/-- The fetch response as the coordinator consumes it: an HTTP status and an
optional body, given as the list of decoded text chunks the reader yields. -/
structure Response where
  status : Nat
  body : Option (List (List Char))
deriving Repr

/-- `response.ok`: status in the 2xx range. -/
def Response.ok (r : Response) : Bool := decide (200 ≤ r.status ∧ r.status < 300)

/-- The module-level and DOM state `sendMessage` reads and writes: the chat
history, the in-flight flag, the input field, its disabled state, the typing
indicator, and the transcript of `addMessageToChat` calls (the user-visible
message stream). -/
structure ChatState where
  chatHistory : List Turn
  isProcessing : Bool
  inputValue : List Char
  inputDisabled : Bool
  typingVisible : Bool
  displayed : List (Role × List Char)
deriving Repr

/-- JS `String.prototype.trim` (line 54). -/
def trimJs (s : List Char) : List Char :=
  ((s.dropWhile isJsSpace).reverse.dropWhile isJsSpace).reverse

/-- The generic error message surfaced by the catch block (line 196). -/
def genericErrorMsg : List Char :=
  strL "Sorry, there was an error processing your request."

/-- The initial assistant greeting (lines 14-20). -/
def greeting : List Char :=
  strL "Hello! I\x27m an LLM chat app. Choose an agent above and ask me anything."

/-- Initial `chatHistory` (lines 14-20): exactly one assistant turn. -/
def chatHistoryInit : List Turn := [⟨Role.assistant, greeting⟩]

/-- The page's initial state (lines 14-21). -/
def initialState : ChatState :=
  ⟨chatHistoryInit, false, [], false, false, []⟩

/-- `sendMessage` (lines 53-207) as one request/response cycle: the guard of
line 57, the user-turn bookkeeping of lines 62-77, the try block (throw on
bad status or missing body, else the streamed read loop and the conditional
assistant-turn append of lines 191-192), the catch block's single generic
error message, and the finally block's unconditional cleanup. -/
def sendMessage (st : ChatState) (resp : Response) : ChatState :=
  let message := trimJs st.inputValue
  if message = [] ∨ st.isProcessing then st
  else
    let st1 : ChatState :=
      { st with
        isProcessing := true
        inputDisabled := true
        displayed := st.displayed ++ [(Role.user, message)]
        inputValue := []
        typingVisible := true
        chatHistory := st.chatHistory ++ [⟨Role.user, message⟩] }
    let st2 : ChatState :=
      if Response.ok resp then
        match resp.body with
        | none =>
          { st1 with displayed := st1.displayed ++ [(Role.assistant, genericErrorMsg)] }
        | some chunks =>
          let responseText := readLoop chunks [] []
          if 0 < responseText.length then
            { st1 with chatHistory := st1.chatHistory ++ [⟨Role.assistant, responseText⟩] }
          else st1
      else
        { st1 with displayed := st1.displayed ++ [(Role.assistant, genericErrorMsg)] }
    { st2 with typingVisible := false, isProcessing := false, inputDisabled := false }

/-- The `messages` array serialized into the outbound request body
(lines 102-111): the history as of line 109, i.e. with the user turn already
appended; `none` when the guard of line 57 rejects the submission. -/
def requestMessages (st : ChatState) : Option (List Turn) :=
  let message := trimJs st.inputValue
  if message = [] ∨ st.isProcessing then none
  else some (st.chatHistory ++ [⟨Role.user, message⟩])

/-- A session: the user types each input and the transport answers with each
response, cycle after cycle, starting from the freshly loaded page. -/
def runCycles (steps : List (List Char × Response)) : ChatState :=
  steps.foldl (fun st step => sendMessage { st with inputValue := step.1 } step.2) initialState

/- ======================= Auxiliary lemmas ======================= -/

theorem startsWithL_self_append : ∀ (p s : List Char), startsWithL p (p ++ s) = true
  | [], s => rfl
  | c :: p, s => by simp [startsWithL, startsWithL_self_append p s]

theorem noNl_splitFirstSep_none : ∀ s : List Char, nlChar ∉ s → splitFirstSep s = none
  | [], _ => rfl
  | [_], _ => rfl
  | c1 :: c2 :: rest, h => by
    rw [splitFirstSep_cons2]
    have h1 : ¬ (c1 = nlChar ∧ c2 = nlChar) := by
      intro hh
      exact h (by simp [hh.1])
    rw [if_neg h1,
      noNl_splitFirstSep_none (c2 :: rest) (fun hm => h (List.mem_cons_of_mem _ hm))]

theorem splitLines_of_noNl : ∀ s : List Char, nlChar ∉ s → splitLines s = [s]
  | [], _ => rfl
  | c :: rest, h => by
    simp only [splitLines]
    have hc : ¬ c = nlChar := by
      intro hh
      exact h (by simp [hh])
    rw [if_neg hc, splitLines_of_noNl rest (fun hm => h (List.mem_cons_of_mem _ hm))]

/- ======================= Claim theorems ======================= -/

/-- C1, counterexample: the framer does not keep further leading whitespace
after the stripped prefix — the line `data:   x` (three spaces) yields the
payload `x`, not `  x` (two spaces retained) as claimed. -/
theorem c1_counterexample :
    ¬ ((consumeSseEvents (strL "data:   x\n\n")).events = [strL "  x"]) := by decide

/-- C1 (amended): for every line of an SSE block that begins with the `data:`
prefix, the Event Framer strips the prefix together with all immediately
following whitespace (JS `trimStart`), whether zero, one or more characters;
in particular the line `data:   x` (three spaces) yields the payload `x`. -/
theorem c1_data_line_trim :
    (∀ rest : List Char, nlChar ∉ rest → crChar ∉ rest →
      (consumeSseEvents (strL "data:" ++ rest ++ strL "\n\n")).events
        = [rest.dropWhile isJsSpace])
    ∧ (consumeSseEvents (strL "data:   x\n\n")).events = [strL "x"] := by
  constructor
  · intro rest hnl hcr
    have hcrfree : removeCR (strL "data:" ++ rest) = strL "data:" ++ rest := by
      rw [removeCR_append]
      have h1 : removeCR (strL "data:") = strL "data:" := by decide
      have h2 : removeCR rest = rest := by
        rw [removeCR, List.filter_eq_self]
        intro a ha
        simp only [decide_not, Bool.not_eq_eq_eq_not, Bool.not_true, decide_eq_false_iff_not]
        intro hh
        exact hcr (hh ▸ ha)
      rw [h1, h2]
    have hnlfull : nlChar ∉ strL "data:" ++ rest := by
      intro hm
      rcases List.mem_append.mp hm with h | h
      · revert h
        decide
      · exact hnl h
    have hsep : splitFirstSep (strL "data:" ++ rest) = none :=
      noNl_splitFirstSep_none _ hnlfull
    have h1 : consumeSseEvents (strL "data:" ++ rest ++ strL "\n\n")
        = frameScan [] ((strL "data:" ++ rest) ++ [nlChar, nlChar]) := by
      show frameScan [] (removeCR _) = _
      rw [removeCR_append, hcrfree, removeCR_blank]
    rw [h1, frameScan_flush (strL "data:" ++ rest) [] hsep, List.nil_append]
    have hlines : splitLines (strL "data:" ++ rest) = [strL "data:" ++ rest] :=
      splitLines_of_noNl _ hnlfull
    have hdrop : (strL "data:" ++ rest).drop 5 = rest := by
      show List.drop (strL "data:").length (strL "data:" ++ rest) = rest
      exact List.drop_left _ _
    simp only [blockEvents, dataLinesOf, hlines, List.filterMap_cons, dataLineValue,
      startsWithL_self_append, if_pos, hdrop, List.filterMap_nil]
    simp [List.intercalate]
  · decide

/-- C2: threading the carried remainder through successive framer calls over
any chunk list produces exactly the framing of the concatenated text in one
call; and the framer is a pure function of its buffer argument. -/
theorem c2_chunk_invariance :
    (∀ chunks : List (List Char), frameChunks chunks [] = consumeSseEvents chunks.flatten)
    ∧ (∀ b : List Char, consumeSseEvents b = consumeSseEvents b) := by
  refine ⟨fun chunks => ?_, fun _ => rfl⟩
  have h := frameChunks_eq_whole chunks [] rfl rfl
  simpa using h

/-- C7: at end-of-data the pending buffer is framed as if terminated by one
more blank-line separator, so a trailing block still becomes an event
(processed under the sentinel rule), and an empty remaining buffer yields no
extra events and leaves the accumulated text unchanged. -/
theorem c7_final_flush :
    (∀ b : List Char,
        (consumeSseEvents (b ++ strL "\n\n")).events
          = (consumeSseEvents b).events ++ blockEvents ((consumeSseEvents b).buffer))
    ∧ (∀ buffer responseText : List Char,
        readLoop [] buffer responseText
          = (processEvents (consumeSseEvents (buffer ++ strL "\n\n")).events responseText).1)
    ∧ blockEvents [] = []
    ∧ (∀ responseText : List Char, readLoop [] [] responseText = responseText) := by
  exact ⟨consumeSseEvents_flush, fun _ _ => rfl, rfl, fun _ => rfl⟩

/-- C8: a complete block (no internal blank-line separator) yields exactly one
event, its `data:` payloads joined by newline in order, when it has at least
one `data:` line; and zero events when it has none. -/
theorem c8_block_framing (B : List Char)
    (hsep : splitFirstSep (removeCR B) = none) :
    (dataLinesOf (removeCR B) ≠ [] →
        (consumeSseEvents (B ++ strL "\n\n")).events
          = [List.intercalate [nlChar] (dataLinesOf (removeCR B))])
    ∧ (dataLinesOf (removeCR B) = [] →
        (consumeSseEvents (B ++ strL "\n\n")).events = []) := by
  have h1 : consumeSseEvents (B ++ strL "\n\n")
      = frameScan [] (removeCR B ++ [nlChar, nlChar]) := by
    show frameScan [] (removeCR _) = _
    rw [removeCR_append, removeCR_blank]
  have h2 := frameScan_flush (removeCR B) [] hsep
  rw [List.nil_append] at h2
  constructor
  · intro hne
    rw [h1, h2]
    simp [blockEvents, hne]
  · intro he
    rw [h1, h2]
    simp [blockEvents, he]

/-- Witness for C1 (amended), at the concrete line `data:   x`. -/
theorem c1_witness :
    (consumeSseEvents (strL "data:" ++ strL "   x" ++ strL "\n\n")).events
      = [strL "x"] := by
  have h := c1_data_line_trim.1 (strL "   x") (by decide) (by decide)
  rw [h]
  decide

/-- Witness for C8: a two-data-line block joins with a newline; a
comment-only block yields no event. -/
theorem c8_witness :
    (consumeSseEvents (strL "data: a\ndata: b" ++ strL "\n\n")).events = [strL "a\nb"]
    ∧ (consumeSseEvents (strL ": keep-alive" ++ strL "\n\n")).events = [] := by
  constructor
  · have h := (c8_block_framing (strL "data: a\ndata: b") (by decide)).1 (by decide)
    rw [h]
    decide
  · exact (c8_block_framing (strL ": keep-alive") (by decide)).2 (by decide)

theorem processEvents_append_sentinel :
    ∀ (evs1 evs2 : List (List Char)) (responseText : List Char),
      doneSentinel ∉ evs1 →
      processEvents (evs1 ++ doneSentinel :: evs2) responseText
        = ((processEvents evs1 responseText).1, true)
  | [], evs2, rt, _ => by simp [processEvents]
  | d :: evs1, evs2, rt, h => by
    have hd : ¬ d = doneSentinel := by
      intro hh
      exact h (by simp [hh])
    simp only [List.cons_append, processEvents, if_neg hd]
    exact processEvents_append_sentinel evs1 evs2 (appendChunkFromSseData d rt)
      (fun hm => h (List.mem_cons_of_mem _ hm))

theorem processEvents_sawDone :
    ∀ (evs : List (List Char)) (responseText : List Char),
      doneSentinel ∈ evs → (processEvents evs responseText).2 = true
  | [], _, h => by cases h
  | d :: evs, rt, h => by
    by_cases hd : d = doneSentinel
    · simp [processEvents, hd]
    · simp only [processEvents, if_neg hd]
      have hm : doneSentinel ∈ evs := by
        cases List.mem_cons.mp h with
        | inl he => exact absurd he.symm hd
        | inr hm => exact hm
      exact processEvents_sawDone evs (appendChunkFromSseData d rt) hm

theorem readLoop_cons (chunk : List Char) (rest : List (List Char))
    (buffer responseText : List Char) :
    readLoop (chunk :: rest) buffer responseText
      = if (processEvents (consumeSseEvents (buffer ++ chunk)).events responseText).2
        then (processEvents (consumeSseEvents (buffer ++ chunk)).events responseText).1
        else readLoop rest (consumeSseEvents (buffer ++ chunk)).buffer
               (processEvents (consumeSseEvents (buffer ++ chunk)).events responseText).1 := rfl

/-- C3: event processing stops at the first sentinel payload (events strictly
after it contribute nothing), the loop result then no longer depends on any
remaining chunks (buffered and unprocessed text is discarded), and the
concrete sequence `A`, `B`, `[DONE]`, `C` accumulates exactly `AB`. -/
theorem c3_sentinel_stops :
    (∀ (evs1 evs2 : List (List Char)) (responseText : List Char),
        doneSentinel ∉ evs1 →
        processEvents (evs1 ++ doneSentinel :: evs2) responseText
          = ((processEvents evs1 responseText).1, true))
    ∧ (∀ (chunk : List Char) (rest rest' : List (List Char)) (buffer responseText : List Char),
        doneSentinel ∈ (consumeSseEvents (buffer ++ chunk)).events →
        readLoop (chunk :: rest) buffer responseText
          = readLoop (chunk :: rest') buffer responseText)
    ∧ readLoop
        [strL "data: \x7b\"response\":\"A\"\x7d\n\ndata: \x7b\"response\":\"B\"\x7d\n\ndata: [DONE]\n\ndata: \x7b\"response\":\"C\"\x7d\n\n"]
        [] []
      = strL "AB" := by
  refine ⟨processEvents_append_sentinel, ?_, by decide⟩
  intro chunk rest rest' buffer responseText hmem
  have h := processEvents_sawDone (consumeSseEvents (buffer ++ chunk)).events responseText hmem
  rw [readLoop_cons, readLoop_cons, h]
  simp

/-- Witness for C3: a sentinel among framed events freezes the accumulated
text and makes the remaining chunks irrelevant. -/
theorem c3_witness :
    processEvents ([strL "x"] ++ doneSentinel :: [strL "y"]) []
        = ((processEvents [strL "x"] []).1, true)
    ∧ readLoop [strL "data: [DONE]\n\n"] [] (strL "Q")
        = readLoop ((strL "data: [DONE]\n\n") :: [strL "ignored"]) [] (strL "Q") := by
  constructor
  · exact c3_sentinel_stops.1 [strL "x"] [strL "y"] [] (by decide)
  · exact c3_sentinel_stops.2.1 (strL "data: [DONE]\n\n") [] [strL "ignored"] [] (strL "Q")
      (by decide)

/-- C4: dual-schema delta extraction — the direct `response` string field is
preferred when non-empty, the nested `choices[0].delta.content` schema is the
fallback, and a payload matching neither schema (`\x7b\x7d`) or failing to
parse at all yields no delta and no error. -/
theorem c4_delta_extraction :
    (∀ responseText : List Char,
        appendChunkFromSseData (strL "\x7b\"response\":\"Hi\"\x7d") responseText
          = responseText ++ strL "Hi")
    ∧ (∀ responseText : List Char,
        appendChunkFromSseData
            (strL "\x7b\"choices\":[\x7b\"delta\":\x7b\"content\":\"Hi\"\x7d\x7d]\x7d")
            responseText
          = responseText ++ strL "Hi")
    ∧ (∀ responseText : List Char,
        appendChunkFromSseData (strL "\x7b\x7d") responseText = responseText)
    ∧ (∀ responseText : List Char,
        appendChunkFromSseData (strL "not json") responseText = responseText)
    ∧ (∀ (jsonData : Json) (s : List Char),
        Json.getField jsonData (strL "response") = some (Json.str s) → s ≠ [] →
        sseContent jsonData = Json.str s)
    ∧ (∀ (data responseText : List Char),
        JSON.parse data = none →
        appendChunkFromSseData data responseText = responseText) := by
  refine ⟨fun _ => rfl, fun _ => rfl, fun _ => rfl, fun _ => rfl, ?_, ?_⟩
  · intro jsonData s h hne
    unfold sseContent
    rw [h]
    have hp : 0 < s.length := List.length_pos.mpr hne
    simp [hp]
  · intro data responseText h
    unfold appendChunkFromSseData
    rw [h]

/-- Witness for C4: the preference conjunct at a concrete object and the
parse-failure conjunct at a concrete non-JSON payload. -/
theorem c4_witness :
    sseContent (Json.obj [(strL "response", Json.str (strL "Hi"))]) = Json.str (strL "Hi")
    ∧ appendChunkFromSseData (strL "oops") [] = [] := by
  constructor
  · exact c4_delta_extraction.2.2.2.2.1
      (Json.obj [(strL "response", Json.str (strL "Hi"))]) (strL "Hi") rfl
      (by decide)
  · exact c4_delta_extraction.2.2.2.2.2 (strL "oops") [] rfl

/- ======================= Rendering helpers ======================= -/

/-- Ampersand (code 38). -/
def ampC : Char := Char.ofNat 38

/-- Less-than sign (code 60). -/
def ltC : Char := Char.ofNat 60

/-- Greater-than sign (code 62). -/
def gtC : Char := Char.ofNat 62

/-- Apostrophe (code 39). -/
def aposC : Char := Char.ofNat 39

/-- JS `String.prototype.replace(/c/g, repl)` for a single-character global
pattern: every occurrence of `c` becomes `repl`. -/
def replaceAll (c : Char) (repl : List Char) (s : List Char) : List Char :=
  s.flatMap (fun x => if x = c then repl else [x])

/-- `escapeHtml` (lines 223-230): the five global replacements applied in
source order, ampersand first. -/
def escapeHtml (s : List Char) : List Char :=
  replaceAll aposC (strL "&#039;")
    (replaceAll quoteC (strL "&quot;")
      (replaceAll gtC (strL "&gt;")
        (replaceAll ltC (strL "&lt;")
          (replaceAll ampC (strL "&amp;") s))))

/-- `addMessageToChat` (lines 212-220): the markup assigned to the new
message element's `innerHTML` — the escaped content wrapped in a paragraph. -/
def addMessageMarkup (content : List Char) : List Char :=
  strL "<p>" ++ escapeHtml content ++ strL "</p>"

/- =================== C5 / C6: cycle outcome theorems =================== -/

/-- C5: on a non-2xx status or missing body, the cycle appends only the user
turn to history (no assistant turn), surfaces exactly one generic error
message, and the cleanup still runs: not processing, input re-enabled, busy
indicator hidden. -/
theorem c5_transport_error (st : ChatState) (resp : Response)
    (hmsg : trimJs st.inputValue ≠ []) (hidle : st.isProcessing = false)
    (hfail : Response.ok resp = false ∨ resp.body = none) :
    (sendMessage st resp).chatHistory
        = st.chatHistory ++ [⟨Role.user, trimJs st.inputValue⟩]
    ∧ (sendMessage st resp).displayed
        = st.displayed
            ++ [(Role.user, trimJs st.inputValue), (Role.assistant, genericErrorMsg)]
    ∧ (sendMessage st resp).isProcessing = false
    ∧ (sendMessage st resp).inputDisabled = false
    ∧ (sendMessage st resp).typingVisible = false := by
  rcases hfail with hok | hbody
  · simp [sendMessage, hidle, hmsg, hok]
  · by_cases hok : Response.ok resp
    · simp [sendMessage, hidle, hmsg, hok, hbody]
    · simp [sendMessage, hidle, hmsg, hok]

/-- C6: on a clean conclusion, a non-empty accumulated text is appended as
exactly one assistant turn with that content; an empty accumulated text adds
no assistant turn (the history keeps only the already-appended user turn). -/
theorem c6_history_append (st : ChatState) (resp : Response) (chunks : List (List Char))
    (hmsg : trimJs st.inputValue ≠ []) (hidle : st.isProcessing = false)
    (hok : Response.ok resp = true) (hbody : resp.body = some chunks) :
    (readLoop chunks [] [] ≠ [] →
        (sendMessage st resp).chatHistory
          = st.chatHistory ++ [⟨Role.user, trimJs st.inputValue⟩,
              ⟨Role.assistant, readLoop chunks [] []⟩])
    ∧ (readLoop chunks [] [] = [] →
        (sendMessage st resp).chatHistory
          = st.chatHistory ++ [⟨Role.user, trimJs st.inputValue⟩]) := by
  constructor
  · intro hne
    have hp : 0 < (readLoop chunks [] []).length := List.length_pos.mpr hne
    simp [sendMessage, hidle, hmsg, hok, hbody, hp]
  · intro he
    simp [sendMessage, hidle, hmsg, hok, hbody, he]

/-- Witness for C5: a 500 response with no body from the initial state with
input `hi`. -/
theorem c5_witness :
    (sendMessage { initialState with inputValue := strL "hi" } ⟨500, none⟩).chatHistory
        = chatHistoryInit ++ [⟨Role.user, strL "hi"⟩]
    ∧ (sendMessage { initialState with inputValue := strL "hi" } ⟨500, none⟩).isProcessing
        = false := by
  have h := c5_transport_error { initialState with inputValue := strL "hi" } ⟨500, none⟩
    (by decide) rfl (Or.inl (by decide))
  exact ⟨h.1.trans (by decide), h.2.2.1⟩

/-- Witness for C6: a streamed `Hey` appends one assistant turn; an empty
body stream appends none. -/
theorem c6_witness :
    (sendMessage { initialState with inputValue := strL "hi" }
        ⟨200, some [strL "data: \x7b\"response\":\"Hey\"\x7d\n\n"]⟩).chatHistory
      = chatHistoryInit ++ [⟨Role.user, strL "hi"⟩, ⟨Role.assistant, strL "Hey"⟩]
    ∧ (sendMessage { initialState with inputValue := strL "hi" }
        ⟨200, some []⟩).chatHistory
      = chatHistoryInit ++ [⟨Role.user, strL "hi"⟩] := by
  constructor
  · have h := (c6_history_append { initialState with inputValue := strL "hi" }
      ⟨200, some [strL "data: \x7b\"response\":\"Hey\"\x7d\n\n"]⟩
      [strL "data: \x7b\"response\":\"Hey\"\x7d\n\n"]
      (by decide) rfl (by decide) rfl).1 (by decide)
    exact h.trans (by decide)
  · have h := (c6_history_append { initialState with inputValue := strL "hi" }
      ⟨200, some []⟩ [] (by decide) rfl (by decide) rfl).2 (by decide)
    exact h.trans (by decide)

/- =================== C9: HTML escaping =================== -/

/-- Single-pass specification of the escaping: each special character maps to
its entity, all others to themselves. -/
def escapeChar (c : Char) : List Char :=
  if c = ampC then strL "&amp;"
  else if c = ltC then strL "&lt;"
  else if c = gtC then strL "&gt;"
  else if c = quoteC then strL "&quot;"
  else if c = aposC then strL "&#039;"
  else [c]

/-- The five entity bodies that may follow an ampersand in escaped output. -/
def entityTails : List (List Char) :=
  [strL "amp;", strL "lt;", strL "gt;", strL "quot;", strL "#039;"]

/-- Every ampersand in the text starts one of the five entities. -/
def ampEntityOk : List Char → Bool
  | [] => true
  | c :: rest =>
    (if c = ampC then entityTails.any (fun e => startsWithL e rest) else true)
      && ampEntityOk rest

theorem replaceAll_cons (c : Char) (repl : List Char) (x : Char) (s : List Char) :
    replaceAll c repl (x :: s)
      = (if x = c then repl else [x]) ++ replaceAll c repl s := by
  simp [replaceAll]

theorem replaceAll_append (c : Char) (repl : List Char) (s t : List Char) :
    replaceAll c repl (s ++ t) = replaceAll c repl s ++ replaceAll c repl t := by
  simp [replaceAll]

/-- The sequential replacements act independently on each input character. -/
theorem escapeHtml_cons (c : Char) (s : List Char) :
    escapeHtml (c :: s) = escapeChar c ++ escapeHtml s := by
  by_cases h1 : c = ampC
  · subst h1
    simp only [escapeHtml, escapeChar, replaceAll_cons, replaceAll_append, if_pos]
    simp only [replaceAll]
    congr 1
  · by_cases h2 : c = ltC
    · subst h2
      simp only [escapeHtml, escapeChar, replaceAll_cons, replaceAll_append]
      simp only [replaceAll]
      congr 1
    · by_cases h3 : c = gtC
      · subst h3
        simp only [escapeHtml, escapeChar, replaceAll_cons, replaceAll_append]
        simp only [replaceAll]
        congr 1
      · by_cases h4 : c = quoteC
        · subst h4
          simp only [escapeHtml, escapeChar, replaceAll_cons, replaceAll_append]
          simp only [replaceAll]
          congr 1
        · by_cases h5 : c = aposC
          · subst h5
            simp only [escapeHtml, escapeChar, replaceAll_cons, replaceAll_append]
            simp only [replaceAll]
            congr 1
          · simp only [escapeHtml, escapeChar, replaceAll_cons, replaceAll_append,
              if_neg h1, if_neg h2, if_neg h3, if_neg h4, if_neg h5]
            simp [replaceAll, h1, h2, h3, h4, h5]

/-- Characterization: the chained global replacements equal one single pass
mapping each character independently. -/
theorem escapeHtml_eq_flatMap (s : List Char) : escapeHtml s = s.flatMap escapeChar := by
  induction s with
  | nil => rfl
  | cons c s ih => rw [List.flatMap_cons, ← ih, escapeHtml_cons]

theorem ampEntityOk_cons (c : Char) (rest : List Char) :
    ampEntityOk (c :: rest)
      = ((if c = ampC then entityTails.any (fun e => startsWithL e rest) else true)
          && ampEntityOk rest) := rfl

theorem ampEntityOk_amp (t : List Char) :
    ampEntityOk (strL "&amp;" ++ t) = ampEntityOk t := by
  show ampEntityOk (ampC :: (strL "amp;" ++ t)) = ampEntityOk t
  rw [ampEntityOk_cons, if_pos rfl]
  have h1 : entityTails.any (fun e => startsWithL e (strL "amp;" ++ t)) = true := by
    have hself := startsWithL_self_append (strL "amp;") t
    simp [entityTails, List.any_cons, hself]
  rw [h1, Bool.true_and]
  show ampEntityOk (Char.ofNat 97 :: (strL "mp;" ++ t)) = ampEntityOk t
  rw [ampEntityOk_cons, if_neg (by decide), Bool.true_and]
  show ampEntityOk (Char.ofNat 109 :: (strL "p;" ++ t)) = ampEntityOk t
  rw [ampEntityOk_cons, if_neg (by decide), Bool.true_and]
  show ampEntityOk (Char.ofNat 112 :: (strL ";" ++ t)) = ampEntityOk t
  rw [ampEntityOk_cons, if_neg (by decide), Bool.true_and]
  show ampEntityOk (Char.ofNat 59 :: t) = ampEntityOk t
  rw [ampEntityOk_cons, if_neg (by decide), Bool.true_and]

theorem ampEntityOk_lt (t : List Char) :
    ampEntityOk (strL "&lt;" ++ t) = ampEntityOk t := by
  show ampEntityOk (ampC :: (strL "lt;" ++ t)) = ampEntityOk t
  rw [ampEntityOk_cons, if_pos rfl]
  have h1 : entityTails.any (fun e => startsWithL e (strL "lt;" ++ t)) = true := by
    have hself := startsWithL_self_append (strL "lt;") t
    simp [entityTails, List.any_cons, hself]
  rw [h1, Bool.true_and]
  show ampEntityOk (Char.ofNat 108 :: (strL "t;" ++ t)) = ampEntityOk t
  rw [ampEntityOk_cons, if_neg (by decide), Bool.true_and]
  show ampEntityOk (Char.ofNat 116 :: (strL ";" ++ t)) = ampEntityOk t
  rw [ampEntityOk_cons, if_neg (by decide), Bool.true_and]
  show ampEntityOk (Char.ofNat 59 :: t) = ampEntityOk t
  rw [ampEntityOk_cons, if_neg (by decide), Bool.true_and]

theorem ampEntityOk_gt (t : List Char) :
    ampEntityOk (strL "&gt;" ++ t) = ampEntityOk t := by
  show ampEntityOk (ampC :: (strL "gt;" ++ t)) = ampEntityOk t
  rw [ampEntityOk_cons, if_pos rfl]
  have h1 : entityTails.any (fun e => startsWithL e (strL "gt;" ++ t)) = true := by
    have hself := startsWithL_self_append (strL "gt;") t
    simp [entityTails, List.any_cons, hself]
  rw [h1, Bool.true_and]
  show ampEntityOk (Char.ofNat 103 :: (strL "t;" ++ t)) = ampEntityOk t
  rw [ampEntityOk_cons, if_neg (by decide), Bool.true_and]
  show ampEntityOk (Char.ofNat 116 :: (strL ";" ++ t)) = ampEntityOk t
  rw [ampEntityOk_cons, if_neg (by decide), Bool.true_and]
  show ampEntityOk (Char.ofNat 59 :: t) = ampEntityOk t
  rw [ampEntityOk_cons, if_neg (by decide), Bool.true_and]

theorem ampEntityOk_quot (t : List Char) :
    ampEntityOk (strL "&quot;" ++ t) = ampEntityOk t := by
  show ampEntityOk (ampC :: (strL "quot;" ++ t)) = ampEntityOk t
  rw [ampEntityOk_cons, if_pos rfl]
  have h1 : entityTails.any (fun e => startsWithL e (strL "quot;" ++ t)) = true := by
    have hself := startsWithL_self_append (strL "quot;") t
    simp [entityTails, List.any_cons, hself]
  rw [h1, Bool.true_and]
  show ampEntityOk (Char.ofNat 113 :: (strL "uot;" ++ t)) = ampEntityOk t
  rw [ampEntityOk_cons, if_neg (by decide), Bool.true_and]
  show ampEntityOk (Char.ofNat 117 :: (strL "ot;" ++ t)) = ampEntityOk t
  rw [ampEntityOk_cons, if_neg (by decide), Bool.true_and]
  show ampEntityOk (Char.ofNat 111 :: (strL "t;" ++ t)) = ampEntityOk t
  rw [ampEntityOk_cons, if_neg (by decide), Bool.true_and]
  show ampEntityOk (Char.ofNat 116 :: (strL ";" ++ t)) = ampEntityOk t
  rw [ampEntityOk_cons, if_neg (by decide), Bool.true_and]
  show ampEntityOk (Char.ofNat 59 :: t) = ampEntityOk t
  rw [ampEntityOk_cons, if_neg (by decide), Bool.true_and]

theorem ampEntityOk_apos (t : List Char) :
    ampEntityOk (strL "&#039;" ++ t) = ampEntityOk t := by
  show ampEntityOk (ampC :: (strL "#039;" ++ t)) = ampEntityOk t
  rw [ampEntityOk_cons, if_pos rfl]
  have h1 : entityTails.any (fun e => startsWithL e (strL "#039;" ++ t)) = true := by
    have hself := startsWithL_self_append (strL "#039;") t
    simp [entityTails, List.any_cons, hself]
  rw [h1, Bool.true_and]
  show ampEntityOk (Char.ofNat 35 :: (strL "039;" ++ t)) = ampEntityOk t
  rw [ampEntityOk_cons, if_neg (by decide), Bool.true_and]
  show ampEntityOk (Char.ofNat 48 :: (strL "39;" ++ t)) = ampEntityOk t
  rw [ampEntityOk_cons, if_neg (by decide), Bool.true_and]
  show ampEntityOk (Char.ofNat 51 :: (strL "9;" ++ t)) = ampEntityOk t
  rw [ampEntityOk_cons, if_neg (by decide), Bool.true_and]
  show ampEntityOk (Char.ofNat 57 :: (strL ";" ++ t)) = ampEntityOk t
  rw [ampEntityOk_cons, if_neg (by decide), Bool.true_and]
  show ampEntityOk (Char.ofNat 59 :: t) = ampEntityOk t
  rw [ampEntityOk_cons, if_neg (by decide), Bool.true_and]

theorem ampEntityOk_escapeChar (c : Char) (t : List Char) (h : ampEntityOk t = true) :
    ampEntityOk (escapeChar c ++ t) = true := by
  by_cases h1 : c = ampC
  · subst h1
    have he : escapeChar ampC = strL "&amp;" := by decide
    rw [he, ampEntityOk_amp, h]
  · by_cases h2 : c = ltC
    · subst h2
      have he : escapeChar ltC = strL "&lt;" := by decide
      rw [he, ampEntityOk_lt, h]
    · by_cases h3 : c = gtC
      · subst h3
        have he : escapeChar gtC = strL "&gt;" := by decide
        rw [he, ampEntityOk_gt, h]
      · by_cases h4 : c = quoteC
        · subst h4
          have he : escapeChar quoteC = strL "&quot;" := by decide
          rw [he, ampEntityOk_quot, h]
        · by_cases h5 : c = aposC
          · subst h5
            have he : escapeChar aposC = strL "&#039;" := by decide
            rw [he, ampEntityOk_apos, h]
          · have he : escapeChar c = [c] := by
              simp [escapeChar, h1, h2, h3, h4, h5]
            rw [he, List.singleton_append, ampEntityOk_cons, if_neg h1, Bool.true_and, h]

theorem ampEntityOk_escapeHtml (s : List Char) : ampEntityOk (escapeHtml s) = true := by
  rw [escapeHtml_eq_flatMap]
  induction s with
  | nil => rfl
  | cons c s ih => rw [List.flatMap_cons]; exact ampEntityOk_escapeChar c _ ih

theorem escapeHtml_no_banned (s : List Char) (c : Char) (hc : c ∈ escapeHtml s) :
    ¬ (c = ltC) ∧ ¬ (c = gtC) ∧ ¬ (c = quoteC) ∧ ¬ (c = aposC) := by
  rw [escapeHtml_eq_flatMap] at hc
  rcases List.mem_flatMap.mp hc with ⟨x, hx, hcx⟩
  by_cases h1 : x = ampC
  · subst h1
    have he : escapeChar ampC = strL "&amp;" := by decide
    rw [he] at hcx
    exact (show ∀ y ∈ strL "&amp;",
      ¬ (y = ltC) ∧ ¬ (y = gtC) ∧ ¬ (y = quoteC) ∧ ¬ (y = aposC) by decide) c hcx
  · by_cases h2 : x = ltC
    · subst h2
      have he : escapeChar ltC = strL "&lt;" := by decide
      rw [he] at hcx
      exact (show ∀ y ∈ strL "&lt;",
        ¬ (y = ltC) ∧ ¬ (y = gtC) ∧ ¬ (y = quoteC) ∧ ¬ (y = aposC) by decide) c hcx
    · by_cases h3 : x = gtC
      · subst h3
        have he : escapeChar gtC = strL "&gt;" := by decide
        rw [he] at hcx
        exact (show ∀ y ∈ strL "&gt;",
          ¬ (y = ltC) ∧ ¬ (y = gtC) ∧ ¬ (y = quoteC) ∧ ¬ (y = aposC) by decide) c hcx
      · by_cases h4 : x = quoteC
        · subst h4
          have he : escapeChar quoteC = strL "&quot;" := by decide
          rw [he] at hcx
          exact (show ∀ y ∈ strL "&quot;",
            ¬ (y = ltC) ∧ ¬ (y = gtC) ∧ ¬ (y = quoteC) ∧ ¬ (y = aposC) by decide) c hcx
        · by_cases h5 : x = aposC
          · subst h5
            have he : escapeChar aposC = strL "&#039;" := by decide
            rw [he] at hcx
            exact (show ∀ y ∈ strL "&#039;",
              ¬ (y = ltC) ∧ ¬ (y = gtC) ∧ ¬ (y = quoteC) ∧ ¬ (y = aposC) by decide) c hcx
          · have he : escapeChar x = [x] := by
              simp [escapeChar, h1, h2, h3, h4, h5]
            rw [he, List.mem_singleton] at hcx
            subst hcx
            exact ⟨h2, h3, h4, h5⟩

/-- C9: `escapeHtml` replaces every special character by its entity (it equals
the single-pass per-character map), so the result holds no raw `<`, `>`, `"`
or apostrophe and every ampersand starts one of the five entities; and every
message rendered by `addMessageToChat` wraps the escaped content. -/
theorem c9_escape_html :
    (∀ s : List Char, escapeHtml s = s.flatMap escapeChar)
    ∧ (∀ (s : List Char) (c : Char), c ∈ escapeHtml s →
        ¬ (c = ltC) ∧ ¬ (c = gtC) ∧ ¬ (c = quoteC) ∧ ¬ (c = aposC))
    ∧ (∀ s : List Char, ampEntityOk (escapeHtml s) = true)
    ∧ (∀ content : List Char,
        addMessageMarkup content = strL "<p>" ++ escapeHtml content ++ strL "</p>") :=
  ⟨escapeHtml_eq_flatMap, escapeHtml_no_banned, ampEntityOk_escapeHtml, fun _ => rfl⟩

/-- Witness for C9 at the concrete message `a<b`. -/
theorem c9_witness :
    escapeHtml (strL "a<b") = (strL "a<b").flatMap escapeChar
    ∧ (¬ (Char.ofNat 97 = ltC) ∧ ¬ (Char.ofNat 97 = gtC)
        ∧ ¬ (Char.ofNat 97 = quoteC) ∧ ¬ (Char.ofNat 97 = aposC)) :=
  ⟨c9_escape_html.1 (strL "a<b"),
   c9_escape_html.2.1 (strL "a<b") (Char.ofNat 97) (by decide)⟩

/- =================== C10: greeting invariant =================== -/

theorem head_append_of_some {α : Type} (l l2 : List α) (x : α)
    (h : l.head? = some x) : (l ++ l2).head? = some x := by
  cases l with
  | nil => cases h
  | cons a t =>
    simp only [List.head?_cons, Option.some.injEq] at h
    simp [h]

/-- Every cycle only appends to the conversation history. -/
theorem sendMessage_history_extends (st : ChatState) (resp : Response) :
    ∃ suffix : List Turn, (sendMessage st resp).chatHistory = st.chatHistory ++ suffix := by
  by_cases hg : trimJs st.inputValue = [] ∨ st.isProcessing = true
  · exact ⟨[], by simp [sendMessage, hg]⟩
  · by_cases hok : Response.ok resp
    · cases hb : resp.body with
      | none =>
        exact ⟨[⟨Role.user, trimJs st.inputValue⟩], by simp [sendMessage, hg, hok, hb]⟩
      | some chunks =>
        by_cases hlen : 0 < (readLoop chunks [] []).length
        · exact ⟨[⟨Role.user, trimJs st.inputValue⟩,
            ⟨Role.assistant, readLoop chunks [] []⟩],
            by simp [sendMessage, hg, hok, hb, hlen]⟩
        · exact ⟨[⟨Role.user, trimJs st.inputValue⟩],
            by simp [sendMessage, hg, hok, hb, hlen]⟩
    · exact ⟨[⟨Role.user, trimJs st.inputValue⟩], by simp [sendMessage, hg, hok]⟩

/-- The greeting turn stays at the head of the history over any session. -/
theorem runCycles_head (steps : List (List Char × Response)) :
    (runCycles steps).chatHistory.head? = some ⟨Role.assistant, greeting⟩ := by
  suffices h : ∀ st : ChatState, st.chatHistory.head? = some ⟨Role.assistant, greeting⟩ →
      (steps.foldl (fun st step => sendMessage { st with inputValue := step.1 } step.2)
          st).chatHistory.head?
        = some ⟨Role.assistant, greeting⟩ by
    exact h initialState rfl
  induction steps with
  | nil => exact fun st h => h
  | cons p steps ih =>
    intro st h
    simp only [List.foldl_cons]
    apply ih
    obtain ⟨suffix, hs⟩ := sendMessage_history_extends { st with inputValue := p.1 } p.2
    rw [hs]
    exact head_append_of_some _ _ _ h

/-- C10: the history starts as the single assistant greeting turn, stays
non-empty with that turn at its head through every cycle, and the `messages`
array of any outbound request therefore begins with that assistant turn, not
with the user's message. -/
theorem c10_greeting_invariant :
    chatHistoryInit = [⟨Role.assistant, greeting⟩]
    ∧ (∀ steps : List (List Char × Response),
        (runCycles steps).chatHistory ≠ []
        ∧ (runCycles steps).chatHistory.head? = some ⟨Role.assistant, greeting⟩)
    ∧ (∀ (steps : List (List Char × Response)) (input : List Char) (msgs : List Turn),
        requestMessages { runCycles steps with inputValue := input } = some msgs →
        msgs.head? = some ⟨Role.assistant, greeting⟩) := by
  refine ⟨rfl, fun steps => ?_, fun steps input msgs h => ?_⟩
  · have hh := runCycles_head steps
    refine ⟨fun he => ?_, hh⟩
    rw [he] at hh
    cases hh
  · have hh := runCycles_head steps
    unfold requestMessages at h
    by_cases hg : trimJs input = [] ∨ (runCycles steps).isProcessing = true
    · rw [if_pos hg] at h
      cases h
    · rw [if_neg hg] at h
      simp only [Option.some.injEq] at h
      subst h
      exact head_append_of_some _ _ _ hh

/-- Witness for C10: the request built from the fresh page with input `yo`
begins with the assistant greeting. -/
theorem c10_witness :
    (chatHistoryInit ++ [(⟨Role.user, strL "yo"⟩ : Turn)]).head?
      = some ⟨Role.assistant, greeting⟩ :=
  c10_greeting_invariant.2.2 [] (strL "yo")
    (chatHistoryInit ++ [(⟨Role.user, strL "yo"⟩ : Turn)]) (by decide)
